import Mathlib

/-!
Verification of the SeQUeNCe repository core against its specification.

The Python sources embedded here:
- `src/event.py` (class `Event` and its comparison operators);
- `src/protocols/management/manager.py` (`ResourceManagerMessage`,
  `ResourceManager.load / update / send_request / received_message`);
- `src/topology/router_net_topo.py` (`_add_timeline`, `_add_nodes`);
- `src/entanglement_swap.py` (`Swap.received_message`, the `got_bits` branch).

Classes `MemoryManager`, `MemoryInfo`, `Rule`, `RuleManager` and `Protocol`
are imported by `manager.py` from modules that are not part of the sources;
where their behaviour matters the definitions below carry a
`Modelled from the spec:` note and follow the specification text
(spec sections 3 and 4.3).
-/

namespace RepoVerify

/-! ## Event (src/event.py)

`Event.__init__(time, process, priority=math.inf)` stores a time and a
priority; the default priority is `math.inf`, so priorities live in
`WithTop Int` (an integer or plus infinity).  The four comparison methods
are translated literally. -/

structure Event where
  time : Int
  priority : WithTop Int

/-- `Event.__eq__`: `(self.time == another.time) and (self.priority == another.priority)`. -/
def eventEq (a b : Event) : Bool :=
  decide (a.time = b.time) && decide (a.priority = b.priority)

/-- `Event.__ne__`: `(self.time != another.time) or (self.priority != another.priority)`. -/
def eventNe (a b : Event) : Bool :=
  decide (a.time ≠ b.time) || decide (a.priority ≠ b.priority)

/-- `Event.__gt__`: `(self.time > another.time) or (self.time == another.time and self.priority > another.priority)`. -/
def eventGt (a b : Event) : Bool :=
  decide (a.time > b.time) || (decide (a.time = b.time) && decide (a.priority > b.priority))

/-- `Event.__lt__`: `(self.time < another.time) or (self.time == another.time and self.priority < another.priority)`. -/
def eventLt (a b : Event) : Bool :=
  decide (a.time < b.time) || (decide (a.time = b.time) && decide (a.priority < b.priority))

/-! ## ResourceManager, memory side (src/protocols/management/manager.py)

`ResourceManager.load` and `ResourceManager.update` manipulate the node's
`MemoryManager` (one `MemoryInfo` per slot) and the ordered `RuleManager`.

Modelled from the spec: `MemoryInfo`, `MemoryManager`, `Rule`, `RuleManager`
and `Protocol` come from `rule_manager.py`, which is not among the sources.
Per spec section 3: a `MemoryInfo` has `state ∈ {RAW, OCCUPIED, ENTANGLED,
EXPIRED}`; a `Rule` is `{predicate : MemoryInfo -> set of claimed MemoryInfo
(possibly empty), action : set of MemoryInfo -> Protocol}`; `MemoryManager`
iterates its `MemoryInfo` records in slot-index order and
`update(memory, state)` writes the new state; `RuleManager.load` appends to
the ordered rule list.  A predicate here receives the scanned slot index and
its state and returns the list of claimed slot indices; `rule.do` is
modelled as recording a `Claim` (a fresh protocol id, the index of the rule
invoked, and the claim set handed to the action) and adding the fresh
protocol to the node's active-protocol list.  A claim is live while its
protocol is active; `ResourceManager.update`, the release path, removes the
finished protocol from the active list and drops its claims. -/

inductive MemState
  | RAW
  | OCCUPIED
  | ENTANGLED
  | EXPIRED
deriving DecidableEq, Repr

structure Rule where
  pred : Nat → MemState → List Nat

/-- One invocation of a rule's action: the fresh protocol id produced, the
index (registration order) of the rule invoked, and the claim set the
predicate returned. -/
structure Claim where
  pid : Nat
  ruleIdx : Nat
  claimed : List Nat
deriving DecidableEq, Repr

structure RMState where
  mems : List MemState
  rules : List Rule
  claims : List Claim
  activePids : List Nat
  nextPid : Nat

/-- `rule.do(memories)`: invoke the rule's action on a claim set, producing a
fresh Protocol (recorded as a `Claim` and added to the active list). -/
def doRule (σ : RMState) (ridx : Nat) (ms : List Nat) : RMState :=
  { σ with claims := σ.claims ++ [⟨σ.nextPid, ridx, ms⟩],
           activePids := σ.activePids ++ [σ.nextPid],
           nextPid := σ.nextPid + 1 }

/-- The scan loop of `ResourceManager.load`:
`for memory_info in self.memory_manager: memories = rule.is_valid(memory_info);
 if len(memories) > 0: memory_info.to_occupied(); rule.do(memories)`. -/
def scanSlots (r : Rule) (ridx : Nat) : List Nat → RMState → RMState
  | [], σ => σ
  | slot :: rest, σ =>
    let ms := r.pred slot (σ.mems.getD slot .RAW)
    if ms.isEmpty then scanSlots r ridx rest σ
    else scanSlots r ridx rest (doRule { σ with mems := σ.mems.set slot .OCCUPIED } ridx ms)

/-- `ResourceManager.load(rule)`: register the rule in the RuleManager, then
scan every current MemoryInfo in slot-index order. -/
def load (σ : RMState) (r : Rule) : RMState :=
  scanSlots r σ.rules.length (List.range σ.mems.length) { σ with rules := σ.rules ++ [r] }

/-- The rule loop of `ResourceManager.update`:
`for rule in self.rule_manager: memories = rule.is_valid(memo_info);
 if len(memories) > 0: rule.do(memories); memo_info.to_occupied(); break`. -/
def reEval (slot : Nat) : Nat → List Rule → RMState → RMState
  | _, [], σ => σ
  | i, r :: rs, σ =>
    let ms := r.pred slot (σ.mems.getD slot .RAW)
    if ms.isEmpty then reEval slot (i + 1) rs σ
    else doRule { σ with mems := σ.mems.set slot .OCCUPIED } i ms

/-- `ResourceManager.update(protocol, memory, state)`:
`self.memory_manager.update(memory, state)` first, then
`self.owner.protocols.remove(protocol)` — which raises `ValueError` when the
protocol is not in the node's active list (the second component records the
raised exception; the first is the state at that point) — and only then the
first-match rule re-evaluation on the freed memory's `MemoryInfo`. -/
def update (σ : RMState) (pid slot : Nat) (st : MemState) : RMState × Option String :=
  let σ1 := { σ with mems := σ.mems.set slot st }
  if pid ∈ σ1.activePids then
    let σ2 := { σ1 with activePids := σ1.activePids.erase pid,
                        claims := σ1.claims.filter (fun c => c.pid ≠ pid) }
    (reEval slot 0 σ2.rules σ2, none)
  else (σ1, some "ValueError")

/-- Index of the first rule (registration order) whose predicate returns a
non-empty claim set on the given memory slot and state. -/
def firstMatchIdx (slot : Nat) (st : MemState) : List Rule → Option Nat
  | [] => none
  | r :: rs =>
    if (r.pred slot st).isEmpty then (firstMatchIdx slot st rs).map (· + 1) else some 0

/-- The claims produced by one `load` scan: one fresh protocol id per
non-empty claim set, in scan order, ids consecutive from `startPid`. -/
def claimsFor (startPid ridx : Nat) : List (List Nat) → List Claim
  | [] => []
  | ms :: rest => ⟨startPid, ridx, ms⟩ :: claimsFor (startPid + 1) ridx rest

/-- Slots of `σ` whose state makes `r`'s predicate return a non-empty claim set. -/
def matchingSlots (σ : RMState) (r : Rule) : List Nat :=
  (List.range σ.mems.length).filter (fun i => !(r.pred i (σ.mems.getD i .RAW)).isEmpty)

/-- A fresh ResourceManager over `n` memories: all slots `RAW` (spec section 3:
`MemoryInfo` records are created at node construction), no rules, no
protocols. -/
def initRM (n : Nat) : RMState :=
  ⟨List.replicate n .RAW, [], [], [], 0⟩

/-- Interleavings of `ResourceManager.load` and `ResourceManager.update`. -/
inductive MemOp
  | loadRule (r : Rule)
  | updateMem (pid slot : Nat) (st : MemState)

def runMemOps : RMState → List MemOp → RMState
  | σ, [] => σ
  | σ, .loadRule r :: ops => runMemOps (load σ r) ops
  | σ, .updateMem p m s :: ops => runMemOps (update σ p m s).1 ops

/-- Protocol `pid` holds a live claim on memory slot `m`. -/
def claimsMem (σ : RMState) (pid m : Nat) : Prop :=
  ∃ c ∈ σ.claims, c.pid = pid ∧ m ∈ c.claimed

/-- A rule whose predicate claims only the memory it is evaluated on and
claims nothing when that memory is already `OCCUPIED`. -/
def goodRule (r : Rule) : Prop :=
  ∀ slot st, (∀ x ∈ r.pred slot st, x = slot) ∧ r.pred slot .OCCUPIED = []

/-- Well-formed interleaving: every loaded rule is a `goodRule`, and
`update(protocol, memory, state)` is only called by a protocol on a memory
it has claimed (the release path of spec section 4.3). -/
def wfMemOps : RMState → List MemOp → Prop
  | _, [] => True
  | σ, .loadRule r :: ops => goodRule r ∧ wfMemOps (load σ r) ops
  | σ, .updateMem p m s :: ops => claimsMem σ p m ∧ wfMemOps (update σ p m s).1 ops

/-- No memory slot is `OCCUPIED` while claimed by two distinct Protocol
instances simultaneously. -/
def noDoubleClaim (σ : RMState) : Prop :=
  ∀ m, σ.mems.getD m .RAW = .OCCUPIED →
    ∀ c1 ∈ σ.claims, ∀ c2 ∈ σ.claims,
      m ∈ c1.claimed → m ∈ c2.claimed → c1.pid = c2.pid

/-! ## ResourceManager, protocol admission side (manager.py)

`send_request` and `received_message` move Protocol handles between
`pending_protocols`, `waiting_protocols` and the node's active-protocol list
`owner.protocols`; `ResourceManager.update` removes a finished protocol from
the active list.  Protocols are identified by `Nat` handles; the behaviour of
`protocol.set_others`, `protocol.start` and `protocol.release` (class
`Protocol` is not among the sources) is, per spec section 4.3, recorded in
the `partners`, `started` and `released` logs.  The `inflight` field is
ghost bookkeeping, not Python state: it lists the protocols introduced by
`send_request` and not yet released (spec section 4.3's admission states
{pending, waiting, active} versus released), used to state the admission
invariant. -/

inductive RMMsg
  | request (ini : Nat) (cond : Nat → Bool)
  | response (ini : Nat) (approved : Bool) (paired : Option Nat)

structure SentMsg where
  dst : String
  msg : RMMsg

structure AdmState where
  pending : List Nat
  waiting : List Nat
  active : List Nat
  partners : List (Nat × Option Nat)
  started : List Nat
  released : List Nat
  sent : List SentMsg
  inflight : List Nat

/-- `ResourceManager.send_request(protocol, req_dst, req_condition_func)`:
with no destination the protocol waits passively; otherwise it is appended
to `pending_protocols` and a REQUEST message is sent to the destination. -/
def sendRequest (σ : AdmState) (p : Nat) (dst : Option String) (cond : Nat → Bool) :
    AdmState :=
  match dst with
  | none => { σ with waiting := σ.waiting ++ [p], inflight := σ.inflight ++ [p] }
  | some d => { σ with pending := σ.pending ++ [p],
                       sent := σ.sent ++ [⟨d, .request p cond⟩],
                       inflight := σ.inflight ++ [p] }

/-- `ResourceManager.received_message(src, msg)`.  On REQUEST: scan
`waiting_protocols` for the first protocol satisfying the condition; on a
match bind it to the initiator (`protocol.set_others(msg.ini_protocol)`),
send an approving RESPONSE back to `src`, remove it from the waiting list,
append it to the node's active list and start it; otherwise send a rejecting
RESPONSE.  On RESPONSE: for approval, `protocol.set_others(msg.paired_protocol)`
then `pending_protocols.remove` (raising `ValueError` when absent), then
append to the active list and start; for rejection, `protocol.release()`
then `pending_protocols.remove` (same possible `ValueError`). -/
def receivedMessage (σ : AdmState) (src : String) (m : RMMsg) : AdmState × Option String :=
  match m with
  | .request ini cond =>
    match σ.waiting.find? cond with
    | some p =>
      ({ σ with partners := σ.partners ++ [(p, some ini)],
                sent := σ.sent ++ [⟨src, .response ini true (some p)⟩],
                waiting := σ.waiting.erase p,
                active := σ.active ++ [p],
                started := σ.started ++ [p] }, none)
    | none =>
      ({ σ with sent := σ.sent ++ [⟨src, .response ini false none⟩] }, none)
  | .response ini approved paired =>
    match approved with
    | true =>
      let σ1 := { σ with partners := σ.partners ++ [(ini, paired)] }
      if ini ∈ σ1.pending then
        ({ σ1 with pending := σ1.pending.erase ini,
                   active := σ1.active ++ [ini],
                   started := σ1.started ++ [ini] }, none)
      else (σ1, some "ValueError")
    | false =>
      let σ1 := { σ with released := σ.released ++ [ini],
                         inflight := if ini ∈ σ.pending then σ.inflight.erase ini
                                     else σ.inflight }
      if ini ∈ σ1.pending then
        ({ σ1 with pending := σ1.pending.erase ini }, none)
      else (σ1, some "ValueError")

/-- The admission effect of `ResourceManager.update(protocol, ...)`:
`self.owner.protocols.remove(protocol)`, raising `ValueError` when the
protocol is not in the node's active list; a successfully removed protocol
is finished, i.e. released. -/
def finishProtocol (σ : AdmState) (p : Nat) : AdmState × Option String :=
  if p ∈ σ.active then
    ({ σ with active := σ.active.erase p, released := σ.released ++ [p],
              inflight := σ.inflight.erase p }, none)
  else (σ, some "ValueError")

/-- Sequences of `send_request`, `received_message` and `update` calls. -/
inductive AdmOp
  | send (p : Nat) (dst : Option String) (cond : Nat → Bool)
  | recv (src : String) (m : RMMsg)
  | finish (p : Nat)

def runAdmOps : AdmState → List AdmOp → AdmState
  | σ, [] => σ
  | σ, .send p d c :: ops => runAdmOps (sendRequest σ p d c) ops
  | σ, .recv s m :: ops => runAdmOps (receivedMessage σ s m).1 ops
  | σ, .finish p :: ops => runAdmOps (finishProtocol σ p).1 ops

/-- How many of the three admission collections hold protocol `p`
(occurrences counted, so duplicates inside one list are also seen). -/
def admCount (σ : AdmState) (p : Nat) : Nat :=
  (σ.pending ++ σ.waiting ++ σ.active).count p

def admInit : AdmState := ⟨[], [], [], [], [], [], [], []⟩

/-- Well-formed call sequence: `send_request` is only called with a protocol
handle not currently contained in any of the three collections. -/
def wfAdmOps : AdmState → List AdmOp → Prop
  | _, [] => True
  | σ, .send p d c :: ops => admCount σ p = 0 ∧ wfAdmOps (sendRequest σ p d c) ops
  | σ, .recv s m :: ops => wfAdmOps (receivedMessage σ s m).1 ops
  | σ, .finish p :: ops => wfAdmOps (finishProtocol σ p).1 ops

/-- Admission invariant: ghost `inflight` has no duplicates and a protocol's
total number of occurrences across the three collections equals its count in
`inflight`. -/
def admInv (σ : AdmState) : Prop :=
  σ.inflight.Nodup ∧ ∀ p, admCount σ p = σ.inflight.count p

/-- Invariant of the memory machine: distinct live claims never share a
memory slot; every slot held by a live claim is a real slot in state
OCCUPIED; every live claim's protocol is active; every loaded rule is good. -/
def memInv (σ : RMState) : Prop :=
  (∀ c1 ∈ σ.claims, ∀ c2 ∈ σ.claims, ∀ m, m ∈ c1.claimed → m ∈ c2.claimed → c1 = c2) ∧
  (∀ c ∈ σ.claims, ∀ m ∈ c.claimed,
     m < σ.mems.length ∧ σ.mems.getD m .RAW = .OCCUPIED) ∧
  (∀ c ∈ σ.claims, c.pid ∈ σ.activePids) ∧
  (∀ r ∈ σ.rules, goodRule r)

/-! ## ResourceManagerMessage constructor (manager.py)

`ResourceManagerMessage.__init__` reads `kwargs["protocol"]`, then for
REQUEST `kwargs["req_condition_fun"]`, for RESPONSE `kwargs["is_approved"]`
and `kwargs["paired_protocol"]`, and for any other `msg_type` raises
`Exception("ResourceManagerMessage gets unknown type of message: ...")`.
Keyword arguments are modelled as `Option` values (present or absent); a
missing key is a `KeyError`. -/

structure RMMessageFields where
  msg_type : String
  receiver : String
  ini_protocol : Nat
  req_condition : Option (Nat → Bool)
  is_approved : Option Bool
  paired : Option (Option Nat)

def mkResourceManagerMessage (msg_type receiver : String) (proto : Nat)
    (cond : Option (Nat → Bool)) (appr : Option Bool) (paired : Option (Option Nat)) :
    Except String RMMessageFields :=
  if msg_type = "REQUEST" then
    match cond with
    | some c => .ok ⟨msg_type, receiver, proto, some c, none, none⟩
    | none => .error "KeyError"
  else if msg_type = "RESPONSE" then
    match appr, paired with
    | some a, some pp => .ok ⟨msg_type, receiver, proto, none, some a, some pp⟩
    | _, _ => .error "KeyError"
  else .error ("ResourceManagerMessage gets unknown type of message: " ++ msg_type)

/-! ## RouterNetTopo loading (src/topology/router_net_topo.py)

`_add_timeline` and `_add_nodes` run during `RouterNetTopo._load`, before
any simulation event executes.  Python exceptions (`assert`,
`NotImplementedError`, missing-key/index errors) are `Except.error`. -/

structure TimelineConf where
  is_parallel : Bool
  process_num : Nat
  group_types : List String

inductive TimelineKind
  | sequential
  | parallelSync
  | parallelAsync
deriving DecidableEq, Repr

/-- `RouterNetTopo._add_timeline(config)` at MPI rank `rank` with
`MPI.COMM_WORLD.Get_size() = mpiSize`: for a parallel configuration,
`assert MPI.COMM_WORLD.Get_size() == config[PROC_NUM]`, then dispatch on
`config[ALL_GROUP][rank][TYPE]`, raising `NotImplementedError` for an
unknown timeline type. -/
def addTimeline (mpiSize rank : Nat) (c : TimelineConf) : Except String TimelineKind :=
  if c.is_parallel then
    if mpiSize = c.process_num then
      match c.group_types[rank]? with
      | some t =>
        if t = "sync" then .ok .parallelSync
        else if t = "async" then .ok .parallelAsync
        else .error "NotImplementedError: Unknown type of timeline"
      | none => .error "IndexError"
    else .error "AssertionError"
  else .ok .sequential

structure NodeConf where
  name : String
  ntype : String
  group : Nat
  seed : Nat
  memo_size : Nat
deriving DecidableEq, Repr

/-- One iteration of the `_add_nodes` loop at MPI rank `rank` with world size
`size`: `assert group < size`; for a node of the local group, dispatch on its
type — `BSMNode` looks up `self.bsm_to_router_map[name]` (KeyError when
absent), `QuantumRouter` succeeds, anything else raises
`NotImplementedError`; foreign-group nodes are registered as foreign
entities. -/
def checkNode (rank size : Nat) (bsmMap : List (String × List String)) (n : NodeConf) :
    Except String Unit :=
  if n.group < size then
    if n.group = rank then
      if n.ntype = "BSMNode" then
        match bsmMap.lookup n.name with
        | some _ => .ok ()
        | none => .error "KeyError"
      else if n.ntype = "QuantumRouter" then .ok ()
      else .error "NotImplementedError: Unknown type of node"
    else .ok ()
  else .error "AssertionError: Group id is out of scope"

/-- `RouterNetTopo._add_nodes(config)`: process the configured node list in
order; the first raised exception aborts the loop. -/
def addNodes (rank size : Nat) (bsmMap : List (String × List String)) :
    List NodeConf → Except String Unit
  | [] => .ok ()
  | n :: rest =>
    match checkNode rank size bsmMap n with
    | .ok _ => addNodes rank size bsmMap rest
    | .error e => .error e

def isErr {ε α : Type} : Except ε α → Bool
  | .error _ => true
  | .ok _ => false

/-! ## Swap.received_message, got_bits branch (src/entanglement_swap.py)

`message = self.node.message.split(" ")`; in the `got_bits` branch the code
runs `sender = int(message[1])` and then
`self.bit_lengths[sender] = int(message(2))` — `message(2)` calls the parsed
token list as a function, which in Python unconditionally raises
`TypeError: 'list' object is not callable` before anything is stored. -/

def splitAux : List Char → List Char → List String
  | [], acc => [String.mk acc.reverse]
  | c :: rest, acc =>
    if c = ' ' then String.mk acc.reverse :: splitAux rest []
    else splitAux rest (c :: acc)

/-- Python's `s.split(" ")`: split on every single space. -/
def splitMsg (s : String) : List String := splitAux s.data []

def digitVal (c : Char) : Option Nat :=
  if c.isDigit then some (c.toNat - 48) else none

def parseNatAux : List Char → Nat → Option Nat
  | [], acc => some acc
  | c :: rest, acc =>
    match digitVal c with
    | some d => parseNatAux rest (acc * 10 + d)
    | none => none

/-- Python's `int(s)` on decimal literals. -/
def pyInt (s : String) : Option Int :=
  match s.data with
  | [] => none
  | '-' :: rest =>
    if rest.isEmpty then none else (parseNatAux rest 0).map (fun n => -(n : Int))
  | l => (parseNatAux l 0).map (fun n => (n : Int))

/-- The `got_bits` branch as written in the source: after parsing the sender,
evaluating `message(2)` raises `TypeError`. -/
def gotBitsAsWritten (bit_lengths : List (Option Int)) (tokens : List String) :
    Except String (List (Option Int)) :=
  if tokens.getD 0 "" = "got_bits" then
    match pyInt (tokens.getD 1 "") with
    | some _ => .error "TypeError: list object is not callable"
    | none => .error "ValueError: invalid literal for int"
  else .ok bit_lengths

/-- Modelled from the spec: the intended field access (spec section 9 calls
`message(2)` a bug and says to reproduce the intended access, the third
positional field `message[2]`): store `int(message[2])` into
`bit_lengths[sender]`. -/
def gotBitsIntended (bit_lengths : List (Option Int)) (tokens : List String) :
    Except String (List (Option Int)) :=
  if tokens.getD 0 "" = "got_bits" then
    match pyInt (tokens.getD 1 ""), pyInt (tokens.getD 2 "") with
    | some sender, some n => .ok (bit_lengths.set sender.toNat (some n))
    | _, _ => .error "ValueError: invalid literal for int"
  else .ok bit_lengths

/-! ## Concrete instances used by counterexamples and witnesses -/

/-- The trivial rule whose predicate never matches (used as `getD` default). -/
def noRule : Rule := ⟨fun _ _ => []⟩

/-- A loaded rule matching every state (its claim set is always non-empty). -/
def c1Rule : Rule := ⟨fun _ _ => [0]⟩

/-- A rule claiming the scanned memory exactly when it is ENTANGLED. -/
def c1WitRule : Rule := ⟨fun slot st => if st = .ENTANGLED then [slot] else []⟩

/-- One memory claimed by active protocol 0, rule `c1WitRule` loaded. -/
def c1WitState : RMState := ⟨[.RAW], [c1WitRule], [⟨0, 0, [0]⟩], [0], 1⟩

/-- One RAW memory, one loaded always-matching rule, no active protocol. -/
def c1State : RMState := ⟨[.RAW], [c1Rule], [], [], 0⟩

/-- A rule whose predicate claims memories other than the scanned one:
on slot 0 it claims slots 0 and 2, on slot 1 it claims slots 1 and 2. -/
def c5Rule : Rule :=
  ⟨fun slot _ => if slot = 0 then [0, 2] else if slot = 1 then [1, 2] else []⟩

/-- A rule claiming slot 0 regardless of which memory is scanned. -/
def c6Rule : Rule := ⟨fun _ _ => [0]⟩

/-- A rule claiming exactly the scanned memory whenever it is not OCCUPIED. -/
def c6GoodRule : Rule := ⟨fun slot st => if st = .OCCUPIED then [] else [slot]⟩

def c6DemoOps : List MemOp := [.loadRule c6GoodRule, .updateMem 0 0 .ENTANGLED]

def c2Cond : Nat → Bool := fun q => q == 5

/-- A node with protocol 5 waiting for a remote request. -/
def c2State : AdmState := ⟨[], [5], [], [], [], [], [], [5]⟩

/-- A node with protocol 3 pending on a remote request. -/
def c3State : AdmState := ⟨[3], [], [], [], [], [], [], [3]⟩

/-- The same protocol handle passed to `send_request` twice. -/
def c4BadOps : List AdmOp :=
  [.send 0 none (fun _ => true), .send 0 (some "b") (fun _ => true)]

def c4DemoOps : List AdmOp :=
  [.send 0 none (fun _ => true), .recv "x" (.request 7 (fun _ => true))]

/-- Parallel configuration declaring 3 processes. -/
def c8TlConf : TimelineConf := ⟨true, 3, ["sync"]⟩

/-- Parallel configuration whose rank-1 timeline type is unknown. -/
def c8TlConf2 : TimelineConf := ⟨true, 2, ["sync", "weird"]⟩

/-- A node whose group id 5 is out of range for a 2-process run. -/
def c8Node : NodeConf := ⟨"n1", "QuantumRouter", 5, 0, 0⟩

/-- A node of unknown type in group 0. -/
def c8Node2 : NodeConf := ⟨"n2", "FooNode", 0, 0, 0⟩

end RepoVerify

namespace RepoVerify

/-! ## Helper lemmas -/

lemma getD_set_self {α : Type} (l : List α) (i : Nat) (a d : α) (h : i < l.length) :
    (l.set i a).getD i d = a := by
  rw [List.getD_eq_getElem _ _ (by simpa using h)]
  exact List.getElem_set_self _

lemma getD_set_ne {α : Type} (l : List α) {i j : Nat} (hij : i ≠ j) (a d : α) :
    (l.set i a).getD j d = l.getD j d := by
  by_cases hj : j < l.length
  · rw [List.getD_eq_getElem _ _ (by simpa using hj), List.getD_eq_getElem _ _ hj]
    exact List.getElem_set_ne hij _
  · rw [List.getD_eq_default _ _ (by simpa using Nat.le_of_not_lt hj),
        List.getD_eq_default _ _ (Nat.le_of_not_lt hj)]

lemma addNodes_isErr_of_mem (rank size : Nat) (bm : List (String × List String))
    (nodes : List NodeConf) (n : NodeConf) (hn : n ∈ nodes)
    (he : isErr (checkNode rank size bm n) = true) :
    isErr (addNodes rank size bm nodes) = true := by
  induction nodes with
  | nil => cases hn
  | cons a rest ih =>
    rcases List.mem_cons.1 hn with h | h
    · subst h
      simp only [addNodes]
      cases hc : checkNode rank size bm n with
      | ok u => rw [hc] at he; cases he
      | error e => rfl
    · simp only [addNodes]
      cases hc : checkNode rank size bm a with
      | ok u => exact ih h
      | error e => rfl

/-- Claim C7: for every pair of Events the comparison operators implement the
lexicographic order on (time, priority): `a < b` iff `a.time < b.time` or
(`a.time = b.time` and `a.priority < b.priority`), `a > b` is its mirror,
`a == b` iff both components are equal, and exactly one of `<`, `==`, `>`
holds, so Events are totally ordered by (time ascending, priority ascending). -/
theorem event_comparisons_lexicographic (a b : Event) :
    (eventLt a b = true ↔ (a.time < b.time ∨ (a.time = b.time ∧ a.priority < b.priority))) ∧
    (eventGt a b = true ↔ (a.time > b.time ∨ (a.time = b.time ∧ a.priority > b.priority))) ∧
    (eventEq a b = true ↔ (a.time = b.time ∧ a.priority = b.priority)) ∧
    ((eventLt a b = true ∧ eventEq a b = false ∧ eventGt a b = false) ∨
     (eventLt a b = false ∧ eventEq a b = true ∧ eventGt a b = false) ∨
     (eventLt a b = false ∧ eventEq a b = false ∧ eventGt a b = true)) := by
  refine ⟨by simp [eventLt], by simp [eventGt], by simp [eventEq], ?_⟩
  rcases lt_trichotomy a.time b.time with ht | ht | ht
  · exact Or.inl (by simp [eventLt, eventEq, eventGt, ht, ht.ne, lt_asymm ht])
  · rcases lt_trichotomy a.priority b.priority with hp | hp | hp
    · exact Or.inl (by simp [eventLt, eventEq, eventGt, ht, hp, hp.ne, lt_asymm hp])
    · exact Or.inr (Or.inl (by simp [eventLt, eventEq, eventGt, ht, hp]))
    · exact Or.inr (Or.inr (by simp [eventLt, eventEq, eventGt, ht, hp, hp.ne', lt_asymm hp]))
  · exact Or.inr (Or.inr (by simp [eventLt, eventEq, eventGt, ht, ht.ne', lt_asymm ht]))

end RepoVerify

namespace RepoVerify

/-- Claim C10: `ResourceManager.update` is not atomic on error: it first
writes the new state to the memory via `MemoryManager.update` and only then
removes the protocol from the node's active-protocol set, so if the given
protocol is not in that set a ValueError propagates to the caller after the
memory's state has already been changed (not rolled back) and no rule
re-evaluation occurs. -/
theorem update_not_atomic_on_error (σ : RMState) (pid slot : Nat) (st : MemState)
    (h : pid ∉ σ.activePids) :
    update σ pid slot st = ({ σ with mems := σ.mems.set slot st }, some "ValueError") := by
  simp [update, h]

theorem update_not_atomic_on_error_witness :
    (0 : Nat) ∉ (initRM 1).activePids ∧
    update (initRM 1) 0 0 .ENTANGLED =
      ({ initRM 1 with mems := [.ENTANGLED] }, some "ValueError") :=
  ⟨by decide, update_not_atomic_on_error (initRM 1) 0 0 .ENTANGLED (by decide)⟩

/-- Claim C1, counterexample: calling `update` with a protocol that is not in
the node's active set leaves the memory in the state passed to `update` (here
ENTANGLED, not OCCUPIED) and invokes no rule action (no claim is recorded),
even though a loaded rule's predicate returns a non-empty claim set for that
state — contradicting the claim that for every call the loaded rules are
evaluated and the first match's action is invoked. -/
theorem update_c1_counterexample :
    c1Rule.pred 0 .ENTANGLED ≠ [] ∧
    c1State.rules = [c1Rule] ∧
    (update c1State 0 0 .ENTANGLED).1.mems = [.ENTANGLED] ∧
    (update c1State 0 0 .ENTANGLED).1.claims = [] ∧
    (update c1State 0 0 .ENTANGLED).2 = some "ValueError" :=
  ⟨by decide, rfl, rfl, rfl, rfl⟩

/-- Claim C9: for a received `got_bits` message with integer sender and bit
count ("got_bits 0 5"), the intended behaviour is to read the third
positional field and store it as an int in `bit_lengths[sender]` without
raising; the code as written instead evaluates `int(message(2))`, calling
the parsed token list as a function, which raises TypeError before any
store happens. -/
theorem got_bits_field_access_bug :
    splitMsg "got_bits 0 5" = ["got_bits", "0", "5"] ∧
    gotBitsAsWritten [none, none] (splitMsg "got_bits 0 5") =
      .error "TypeError: list object is not callable" ∧
    gotBitsIntended [none, none] (splitMsg "got_bits 0 5") = .ok [some 5, none] :=
  ⟨rfl, rfl, rfl⟩

/-- Claim C8: invalid configuration or message input is fatal and detected
during loading: constructing a `ResourceManagerMessage` with a `msg_type`
other than REQUEST or RESPONSE raises; in a parallel configuration an MPI
process count differing from the configured `process_num` fails the assert
at every rank; an unknown timeline type raises NotImplementedError; a node
whose group id is not less than the process count fails the assert at every
rank; and a node of unknown type makes loading raise at the rank owning its
group (which is a valid rank, so the distributed run aborts). -/
theorem fatal_config_errors :
    (∀ t recv proto c a pp, t ≠ "REQUEST" → t ≠ "RESPONSE" →
       isErr (mkResourceManagerMessage t recv proto c a pp) = true) ∧
    (∀ mpiSize rank c, c.is_parallel = true → mpiSize ≠ c.process_num →
       isErr (addTimeline mpiSize rank c) = true) ∧
    (∀ mpiSize rank c t, c.is_parallel = true → mpiSize = c.process_num →
       c.group_types[rank]? = some t → t ≠ "sync" → t ≠ "async" →
       isErr (addTimeline mpiSize rank c) = true) ∧
    (∀ rank size bm nodes n, n ∈ nodes → ¬ n.group < size →
       isErr (addNodes rank size bm nodes) = true) ∧
    (∀ size bm nodes n, n ∈ nodes → n.group < size →
       n.ntype ≠ "BSMNode" → n.ntype ≠ "QuantumRouter" →
       n.group < size ∧ isErr (addNodes n.group size bm nodes) = true) := by
  refine ⟨?_, ?_, ?_, ?_, ?_⟩
  · intro t recv proto c a pp h1 h2
    simp [mkResourceManagerMessage, h1, h2, isErr]
  · intro mpiSize rank c hpar hne
    simp [addTimeline, hpar, hne, isErr]
  · intro mpiSize rank c t hpar heq hget h1 h2
    simp [addTimeline, hpar, heq, hget, h1, h2, isErr]
  · intro rank size bm nodes n hn hg
    exact addNodes_isErr_of_mem rank size bm nodes n hn (by simp [checkNode, hg, isErr])
  · intro size bm nodes n hn hg h1 h2
    refine ⟨hg, addNodes_isErr_of_mem n.group size bm nodes n hn ?_⟩
    simp [checkNode, hg, h1, h2, isErr]

theorem fatal_config_errors_witness :
    isErr (mkResourceManagerMessage "NOTIFY" "resource_manager" 0 none none none) = true ∧
    isErr (addTimeline 2 0 c8TlConf) = true ∧
    isErr (addTimeline 2 1 c8TlConf2) = true ∧
    isErr (addNodes 0 2 [] [c8Node]) = true ∧
    isErr (addNodes c8Node2.group 1 [] [c8Node2]) = true :=
  ⟨fatal_config_errors.1 "NOTIFY" "resource_manager" 0 none none none
     (by decide) (by decide),
   fatal_config_errors.2.1 2 0 c8TlConf rfl (by decide),
   fatal_config_errors.2.2.1 2 1 c8TlConf2 "weird" rfl rfl rfl (by decide) (by decide),
   fatal_config_errors.2.2.2.1 0 2 [] [c8Node] c8Node (by decide) (by decide),
   (fatal_config_errors.2.2.2.2 1 [] [c8Node2] c8Node2 (by decide) (by decide)
     (by decide) (by decide)).2⟩

end RepoVerify

namespace RepoVerify

/-- Claim C2: for every REQUEST received by `ResourceManager.received_message`,
the waiting list is scanned in insertion order; the first protocol satisfying
the condition predicate is bound to the initiator (`set_others`), a RESPONSE
with `approved = true` and that protocol as `paired_protocol` is sent back to
the sender, the protocol is removed from `waiting_protocols`, appended to the
node's active-protocol list and started; with no match a RESPONSE with
`approved = false` is sent and `waiting_protocols` is unchanged.  Hence two
successive REQUESTs matching a single waiting protocol get `approved = true`
then `approved = false`. -/
theorem received_request_first_match (σ : AdmState) (src : String) (ini : Nat)
    (cond : Nat → Bool) :
    (∀ p, σ.waiting.find? cond = some p →
       receivedMessage σ src (.request ini cond) =
         ({ σ with partners := σ.partners ++ [(p, some ini)],
                   sent := σ.sent ++ [⟨src, .response ini true (some p)⟩],
                   waiting := σ.waiting.erase p,
                   active := σ.active ++ [p],
                   started := σ.started ++ [p] }, none)) ∧
    (σ.waiting.find? cond = none →
       receivedMessage σ src (.request ini cond) =
         ({ σ with sent := σ.sent ++ [⟨src, .response ini false none⟩] }, none)) ∧
    (∀ p, σ.waiting = [p] → cond p = true →
       ∀ src2 ini2 cond2,
         (receivedMessage σ src (.request ini cond)).1.sent =
             σ.sent ++ [⟨src, .response ini true (some p)⟩] ∧
         (receivedMessage (receivedMessage σ src (.request ini cond)).1 src2
             (.request ini2 cond2)).1.sent =
           σ.sent ++ [⟨src, .response ini true (some p)⟩,
                      ⟨src2, .response ini2 false none⟩]) := by
  refine ⟨?_, ?_, ?_⟩
  · intro p hp
    simp only [receivedMessage, hp]
  · intro hn
    simp only [receivedMessage, hn]
  · intro p hw hc src2 ini2 cond2
    have hfind : σ.waiting.find? cond = some p := by
      rw [hw]; exact List.find?_cons_of_pos _ hc
    have h1 : receivedMessage σ src (.request ini cond) =
        ({ σ with partners := σ.partners ++ [(p, some ini)],
                  sent := σ.sent ++ [⟨src, .response ini true (some p)⟩],
                  waiting := σ.waiting.erase p,
                  active := σ.active ++ [p],
                  started := σ.started ++ [p] }, none) := by
      simp only [receivedMessage, hfind]
    constructor
    · rw [h1]
    · rw [h1]
      have hfind2 : List.find? cond2 (σ.waiting.erase p) = none := by
        rw [hw, List.erase_cons_head]; rfl
      simp only [receivedMessage, hfind2]
      simp

theorem received_request_first_match_witness :
    c2State.waiting.find? c2Cond = some 5 ∧
    receivedMessage c2State "a" (.request 9 c2Cond) =
      ({ c2State with partners := c2State.partners ++ [(5, some 9)],
                      sent := c2State.sent ++ [⟨"a", .response 9 true (some 5)⟩],
                      waiting := c2State.waiting.erase 5,
                      active := c2State.active ++ [5],
                      started := c2State.started ++ [5] }, none) :=
  ⟨rfl, (received_request_first_match c2State "a" 9 c2Cond).1 5 rfl⟩

/-- Claim C3: for every RESPONSE received by `received_message` whose
initiator protocol is in `pending_protocols`: if approved, the protocol is
bound to the paired protocol, removed from `pending_protocols`, appended to
the node's active list and started; if rejected, the protocol is released
and removed from `pending_protocols`; no exception is raised in either case
(the second component is `none`). -/
theorem received_response_outcomes (σ : AdmState) (src : String) (p : Nat)
    (paired : Option Nat) (hp : p ∈ σ.pending) :
    receivedMessage σ src (.response p true paired) =
      ({ σ with partners := σ.partners ++ [(p, paired)],
                pending := σ.pending.erase p,
                active := σ.active ++ [p],
                started := σ.started ++ [p] }, none) ∧
    receivedMessage σ src (.response p false paired) =
      ({ σ with released := σ.released ++ [p],
                inflight := σ.inflight.erase p,
                pending := σ.pending.erase p }, none) := by
  constructor
  · simp only [receivedMessage, if_pos hp]
  · simp only [receivedMessage, if_pos hp]

theorem received_response_outcomes_witness :
    (3 : Nat) ∈ c3State.pending ∧
    (receivedMessage c3State "s" (.response 3 true (some 8))).2 = none ∧
    (receivedMessage c3State "s" (.response 3 false none)).2 = none :=
  ⟨by decide,
   by rw [(received_response_outcomes c3State "s" 3 (some 8) (by decide)).1],
   by rw [(received_response_outcomes c3State "s" 3 none (by decide)).2]⟩

end RepoVerify

namespace RepoVerify

lemma admInv_send (σ : AdmState) (p : Nat) (d : Option String) (c : Nat → Bool)
    (h0 : admCount σ p = 0) (h : admInv σ) : admInv (sendRequest σ p d c) := by
  have hpnot : p ∉ σ.inflight := List.count_eq_zero.1 (by rw [← h.2 p]; exact h0)
  have hnd : (σ.inflight ++ [p]).Nodup := by
    rw [List.nodup_append]
    exact ⟨h.1, List.nodup_singleton p, by
      intro a ha hmem
      rw [List.mem_singleton] at hmem
      exact hpnot (hmem ▸ ha)⟩
  cases d with
  | none =>
    refine ⟨hnd, fun q => ?_⟩
    have hq := h.2 q
    simp only [admCount, sendRequest, List.count_append] at hq ⊢
    omega
  | some dd =>
    refine ⟨hnd, fun q => ?_⟩
    have hq := h.2 q
    simp only [admCount, sendRequest, List.count_append] at hq ⊢
    omega

lemma admInv_recv (σ : AdmState) (src : String) (m : RMMsg) (h : admInv σ) :
    admInv ((receivedMessage σ src m).1) := by
  cases m with
  | request ini c =>
    cases hf : σ.waiting.find? c with
    | none =>
      simp only [receivedMessage, hf]
      exact ⟨h.1, fun q => h.2 q⟩
    | some p =>
      have hpw : p ∈ σ.waiting := List.mem_of_find?_eq_some hf
      have hcnt : 0 < σ.waiting.count p := List.count_pos_iff.2 hpw
      simp only [receivedMessage, hf]
      refine ⟨h.1, fun q => ?_⟩
      have hq := h.2 q
      by_cases hqp : q = p
      · subst hqp
        have ho : List.count q [q] = 1 := by simp
        simp only [admCount, List.count_append, List.count_erase_self, ho] at hq ⊢
        omega
      · have hz : List.count q [p] = 0 :=
          List.count_eq_zero_of_not_mem (by simp [hqp])
        simp only [admCount, List.count_append, List.count_erase_of_ne hqp, hz] at hq ⊢
        omega
  | response ini approved paired =>
    by_cases hmem : ini ∈ σ.pending
    · have hcnt : 0 < σ.pending.count ini := List.count_pos_iff.2 hmem
      have hinf : 0 < σ.inflight.count ini := by
        have hq := h.2 ini
        simp only [admCount, List.count_append] at hq
        omega
      cases approved with
      | true =>
        simp only [receivedMessage, if_pos hmem]
        refine ⟨h.1, fun q => ?_⟩
        have hq := h.2 q
        by_cases hqp : q = ini
        · subst hqp
          have ho : List.count q [q] = 1 := by simp
          simp only [admCount, List.count_append, List.count_erase_self, ho] at hq ⊢
          omega
        · have hz : List.count q [ini] = 0 :=
            List.count_eq_zero_of_not_mem (by simp [hqp])
          simp only [admCount, List.count_append, List.count_erase_of_ne hqp, hz] at hq ⊢
          omega
      | false =>
        simp only [receivedMessage, if_pos hmem]
        refine ⟨h.1.erase ini, fun q => ?_⟩
        have hq := h.2 q
        by_cases hqp : q = ini
        · subst hqp
          simp only [admCount, List.count_append, List.count_erase_self] at hq ⊢
          omega
        · simp only [admCount, List.count_append, List.count_erase_of_ne hqp] at hq ⊢
          omega
    · cases approved with
      | true =>
        simp only [receivedMessage, if_neg hmem]
        exact ⟨h.1, fun q => h.2 q⟩
      | false =>
        simp only [receivedMessage, if_neg hmem]
        exact ⟨h.1, fun q => h.2 q⟩

lemma admInv_finish (σ : AdmState) (p : Nat) (h : admInv σ) :
    admInv ((finishProtocol σ p).1) := by
  by_cases hmem : p ∈ σ.active
  · have hcnt : 0 < σ.active.count p := List.count_pos_iff.2 hmem
    have hinf : 0 < σ.inflight.count p := by
      have hq := h.2 p
      simp only [admCount, List.count_append] at hq
      omega
    simp only [finishProtocol, if_pos hmem]
    refine ⟨h.1.erase p, fun q => ?_⟩
    have hq := h.2 q
    by_cases hqp : q = p
    · subst hqp
      simp only [admCount, List.count_append, List.count_erase_self] at hq ⊢
      omega
    · simp only [admCount, List.count_append, List.count_erase_of_ne hqp] at hq ⊢
      omega
  · simp only [finishProtocol, if_neg hmem]
    exact h

lemma admInv_run (ops : List AdmOp) :
    ∀ σ, admInv σ → wfAdmOps σ ops → admInv (runAdmOps σ ops) := by
  induction ops with
  | nil => exact fun σ h _ => h
  | cons op rest ih =>
    intro σ h hwf
    cases op with
    | send p d c => exact ih _ (admInv_send σ p d c hwf.1 h) hwf.2
    | recv s m => exact ih _ (admInv_recv σ s m h) hwf
    | finish p => exact ih _ (admInv_finish σ p h) hwf

/-- Claim C4, counterexample: the claim quantifies over every sequence of
`send_request` / `received_message` / `update` calls, but calling
`send_request` twice with the same protocol handle (once passively, once
actively) leaves it in `waiting_protocols` and `pending_protocols`
simultaneously, i.e. in two of the three collections. -/
theorem admission_c4_counterexample :
    admCount (runAdmOps admInit c4BadOps) 0 = 2 ∧
    (0 : Nat) ∈ (runAdmOps admInit c4BadOps).waiting ∧
    (0 : Nat) ∈ (runAdmOps admInit c4BadOps).pending :=
  ⟨rfl, by decide, by decide⟩

/-- Claim C4 (amended: provided `send_request` is only called with a protocol
handle not currently contained in any of the three collections): at every
instant reachable by such call sequences, each Protocol handle is contained
in at most one of `pending_protocols`, `waiting_protocols` and the node's
active-protocol list, and each protocol introduced by `send_request` and not
yet released (ghost `inflight`) is contained in exactly one; transitions
between the collections are performed only by these operations (the model's
only state-changing operations). -/
theorem admission_at_most_one (ops : List AdmOp) (hwf : wfAdmOps admInit ops) :
    (∀ p, admCount (runAdmOps admInit ops) p ≤ 1) ∧
    (∀ p, p ∈ (runAdmOps admInit ops).inflight →
       admCount (runAdmOps admInit ops) p = 1) := by
  have h := admInv_run ops admInit ⟨List.nodup_nil, fun p => rfl⟩ hwf
  exact ⟨fun p => by rw [h.2 p]; exact List.nodup_iff_count_le_one.1 h.1 p,
         fun p hp => by rw [h.2 p]; exact List.count_eq_one_of_mem h.1 hp⟩

theorem admission_at_most_one_witness :
    wfAdmOps admInit c4DemoOps ∧
    (∀ p, admCount (runAdmOps admInit c4DemoOps) p ≤ 1) ∧
    (∀ p, p ∈ (runAdmOps admInit c4DemoOps).inflight →
       admCount (runAdmOps admInit c4DemoOps) p = 1) :=
  ⟨⟨rfl, trivial⟩, admission_at_most_one c4DemoOps ⟨rfl, trivial⟩⟩

end RepoVerify

namespace RepoVerify

lemma reEval_of_none : ∀ (rules : List Rule) (slot k : Nat) (σ : RMState),
    firstMatchIdx slot (σ.mems.getD slot .RAW) rules = none →
    reEval slot k rules σ = σ := by
  intro rules
  induction rules with
  | nil => intro slot k σ h; rfl
  | cons r rs ih =>
    intro slot k σ h
    simp only [firstMatchIdx] at h
    by_cases he : (r.pred slot (σ.mems.getD slot .RAW)).isEmpty
    · rw [if_pos he] at h
      simp only [reEval]
      rw [if_pos he]
      exact ih slot (k + 1) σ (Option.map_eq_none'.1 h)
    · rw [if_neg he] at h
      cases h

lemma reEval_of_some : ∀ (rules : List Rule) (slot k i : Nat) (σ : RMState),
    firstMatchIdx slot (σ.mems.getD slot .RAW) rules = some i →
    reEval slot k rules σ =
      doRule { σ with mems := σ.mems.set slot .OCCUPIED } (k + i)
        ((rules.getD i noRule).pred slot (σ.mems.getD slot .RAW)) := by
  intro rules
  induction rules with
  | nil => intro slot k i σ h; cases h
  | cons r rs ih =>
    intro slot k i σ h
    simp only [firstMatchIdx] at h
    by_cases he : (r.pred slot (σ.mems.getD slot .RAW)).isEmpty
    · rw [if_pos he] at h
      rcases Option.map_eq_some'.1 h with ⟨j, hj, hji⟩
      subst hji
      simp only [reEval]
      rw [if_pos he, ih slot (k + 1) j σ hj]
      have harith : k + 1 + j = k + (j + 1) := by omega
      rw [harith]
      rfl
    · rw [if_neg he] at h
      cases h
      simp only [reEval]
      rw [if_neg he]
      rfl

/-- Claim C1 (amended: for every call where the protocol is in the node's
active-protocol set and the memory is one of the manager's slots): after the
memory's state is updated the loaded rules are evaluated in registration
order against the freed memory's `MemoryInfo`; only the first rule whose
predicate returns a non-empty claim set has its action invoked (exactly one
new claim, carrying that rule's index and claim set) and the memory is
marked OCCUPIED, no later rule's action is invoked, and if no rule's
predicate returns a non-empty claim set the memory keeps the state passed to
`update` and no rule action is invoked; no exception is raised. -/
theorem update_first_match_wins (σ : RMState) (pid slot : Nat) (st : MemState)
    (hp : pid ∈ σ.activePids) (hs : slot < σ.mems.length) :
    (update σ pid slot st).2 = none ∧
    (update σ pid slot st).1.rules = σ.rules ∧
    (∀ i, firstMatchIdx slot st σ.rules = some i →
       (update σ pid slot st).1.mems.getD slot .RAW = .OCCUPIED ∧
       (update σ pid slot st).1.claims =
         σ.claims.filter (fun c => c.pid ≠ pid) ++
           [⟨σ.nextPid, i, (σ.rules.getD i noRule).pred slot st⟩]) ∧
    (firstMatchIdx slot st σ.rules = none →
       (update σ pid slot st).1.mems = σ.mems.set slot st ∧
       (update σ pid slot st).1.claims = σ.claims.filter (fun c => c.pid ≠ pid)) := by
  have hgd : (σ.mems.set slot st).getD slot .RAW = st :=
    getD_set_self σ.mems slot st .RAW hs
  have hupd : update σ pid slot st =
      (reEval slot 0 σ.rules
        ⟨σ.mems.set slot st, σ.rules, σ.claims.filter (fun c => c.pid ≠ pid),
         σ.activePids.erase pid, σ.nextPid⟩, none) := by
    simp only [update]
    rw [if_pos hp]
  have hre_none : firstMatchIdx slot st σ.rules = none →
      reEval slot 0 σ.rules
        ⟨σ.mems.set slot st, σ.rules, σ.claims.filter (fun c => c.pid ≠ pid),
         σ.activePids.erase pid, σ.nextPid⟩ =
      ⟨σ.mems.set slot st, σ.rules, σ.claims.filter (fun c => c.pid ≠ pid),
       σ.activePids.erase pid, σ.nextPid⟩ := by
    intro hfm
    exact reEval_of_none σ.rules slot 0 _ (by rw [hgd]; exact hfm)
  have hre_some : ∀ i, firstMatchIdx slot st σ.rules = some i →
      reEval slot 0 σ.rules
        ⟨σ.mems.set slot st, σ.rules, σ.claims.filter (fun c => c.pid ≠ pid),
         σ.activePids.erase pid, σ.nextPid⟩ =
      doRule ⟨(σ.mems.set slot st).set slot .OCCUPIED, σ.rules,
              σ.claims.filter (fun c => c.pid ≠ pid),
              σ.activePids.erase pid, σ.nextPid⟩ i
        ((σ.rules.getD i noRule).pred slot st) := by
    intro i hfm
    have h := reEval_of_some σ.rules slot 0 i
      ⟨σ.mems.set slot st, σ.rules, σ.claims.filter (fun c => c.pid ≠ pid),
       σ.activePids.erase pid, σ.nextPid⟩ (by rw [hgd]; exact hfm)
    rw [h, hgd, Nat.zero_add]
  refine ⟨by rw [hupd], ?_, ?_, ?_⟩
  · rw [hupd]
    cases hfm : firstMatchIdx slot st σ.rules with
    | none => rw [hre_none hfm]
    | some i => rw [hre_some i hfm]; rfl
  · intro i hfm
    rw [hupd, hre_some i hfm]
    constructor
    · exact getD_set_self (σ.mems.set slot st) slot MemState.OCCUPIED MemState.RAW
        (by simpa [List.length_set] using hs)
    · rfl
  · intro hfm
    rw [hupd, hre_none hfm]
    exact ⟨rfl, rfl⟩

theorem update_first_match_wins_witness :
    (0 : Nat) ∈ c1WitState.activePids ∧ 0 < c1WitState.mems.length ∧
    firstMatchIdx 0 .ENTANGLED c1WitState.rules = some 0 ∧
    (update c1WitState 0 0 .ENTANGLED).2 = none ∧
    (update c1WitState 0 0 .ENTANGLED).1.mems.getD 0 .RAW = .OCCUPIED :=
  ⟨by decide, by decide, rfl,
   (update_first_match_wins c1WitState 0 0 .ENTANGLED (by decide) (by decide)).1,
   ((update_first_match_wins c1WitState 0 0 .ENTANGLED (by decide)
       (by decide)).2.2.1 0 rfl).1⟩

end RepoVerify

namespace RepoVerify

lemma scanSlots_rules : ∀ (l : List Nat) (r : Rule) (ridx : Nat) (σ : RMState),
    (scanSlots r ridx l σ).rules = σ.rules := by
  intro l
  induction l with
  | nil => intro r ridx σ; rfl
  | cons s rest ih =>
    intro r ridx σ
    simp only [scanSlots]
    by_cases he : (r.pred s (σ.mems.getD s .RAW)).isEmpty
    · rw [if_pos he]; exact ih r ridx σ
    · rw [if_neg he]; exact ih r ridx _

lemma scanSlots_mems_length : ∀ (l : List Nat) (r : Rule) (ridx : Nat) (σ : RMState),
    (scanSlots r ridx l σ).mems.length = σ.mems.length := by
  intro l
  induction l with
  | nil => intro r ridx σ; rfl
  | cons s rest ih =>
    intro r ridx σ
    simp only [scanSlots]
    by_cases he : (r.pred s (σ.mems.getD s .RAW)).isEmpty
    · rw [if_pos he]; exact ih r ridx σ
    · rw [if_neg he]
      rw [ih r ridx _]
      simp [doRule, List.length_set]

lemma scanSlots_mems_not_mem : ∀ (l : List Nat) (r : Rule) (ridx : Nat) (σ : RMState)
    (j : Nat), j ∉ l →
    (scanSlots r ridx l σ).mems.getD j .RAW = σ.mems.getD j .RAW := by
  intro l
  induction l with
  | nil => intro r ridx σ j _; rfl
  | cons s rest ih =>
    intro r ridx σ j hj
    have hjs : j ≠ s := fun h => hj (h ▸ List.mem_cons_self s rest)
    have hjr : j ∉ rest := fun h => hj (List.mem_cons_of_mem s h)
    simp only [scanSlots]
    by_cases he : (r.pred s (σ.mems.getD s .RAW)).isEmpty
    · rw [if_pos he]; exact ih r ridx σ j hjr
    · rw [if_neg he]
      rw [ih r ridx _ j hjr]
      exact getD_set_ne σ.mems (Ne.symm hjs) MemState.OCCUPIED MemState.RAW

lemma scanSlots_mems_mem : ∀ (l : List Nat) (r : Rule) (ridx : Nat) (σ : RMState)
    (j : Nat), l.Nodup → j ∈ l → j < σ.mems.length →
    (scanSlots r ridx l σ).mems.getD j .RAW =
      (if (r.pred j (σ.mems.getD j .RAW)).isEmpty then σ.mems.getD j .RAW
       else .OCCUPIED) := by
  intro l
  induction l with
  | nil => intro r ridx σ j _ hj; cases hj
  | cons s rest ih =>
    intro r ridx σ j hnd hj hlen
    have hnds : s ∉ rest := (List.nodup_cons.1 hnd).1
    have hndr : rest.Nodup := (List.nodup_cons.1 hnd).2
    rcases List.mem_cons.1 hj with hjs | hjr
    · subst hjs
      simp only [scanSlots]
      by_cases he : (r.pred j (σ.mems.getD j .RAW)).isEmpty
      · rw [if_pos he, scanSlots_mems_not_mem rest r ridx σ j hnds, if_pos he]
      · rw [if_neg he, scanSlots_mems_not_mem rest r ridx _ j hnds, if_neg he]
        exact getD_set_self σ.mems j MemState.OCCUPIED MemState.RAW hlen
    · have hjs : j ≠ s := fun h => hnds (h ▸ hjr)
      simp only [scanSlots]
      by_cases he : (r.pred s (σ.mems.getD s .RAW)).isEmpty
      · rw [if_pos he]; exact ih r ridx σ j hndr hjr hlen
      · rw [if_neg he]
        have hgd : (σ.mems.set s MemState.OCCUPIED).getD j MemState.RAW
            = σ.mems.getD j MemState.RAW :=
          getD_set_ne σ.mems (Ne.symm hjs) MemState.OCCUPIED MemState.RAW
        have hlen2 : j < (doRule { σ with mems := σ.mems.set s .OCCUPIED } ridx
            (r.pred s (σ.mems.getD s .RAW))).mems.length := by
          simpa [doRule, List.length_set] using hlen
        rw [ih r ridx _ j hndr hjr hlen2]
        simp only [doRule]
        rw [hgd]

lemma scanSlots_claims : ∀ (l : List Nat) (r : Rule) (ridx : Nat) (σ : RMState),
    l.Nodup →
    (scanSlots r ridx l σ).claims =
      σ.claims ++ claimsFor σ.nextPid ridx
        ((l.filter (fun i => !(r.pred i (σ.mems.getD i .RAW)).isEmpty)).map
          (fun i => r.pred i (σ.mems.getD i .RAW))) ∧
    (scanSlots r ridx l σ).nextPid =
      σ.nextPid + (l.filter (fun i => !(r.pred i (σ.mems.getD i .RAW)).isEmpty)).length := by
  intro l
  induction l with
  | nil => intro r ridx σ _; exact ⟨by simp [scanSlots, claimsFor], rfl⟩
  | cons s rest ih =>
    intro r ridx σ hnd
    have hnds : s ∉ rest := (List.nodup_cons.1 hnd).1
    have hndr : rest.Nodup := (List.nodup_cons.1 hnd).2
    by_cases he : (r.pred s (σ.mems.getD s .RAW)).isEmpty
    · have hfs : (!(r.pred s (σ.mems.getD s .RAW)).isEmpty) = false := by
        rw [he]; rfl
      have hfilter :
          (s :: rest).filter (fun i => !(r.pred i (σ.mems.getD i .RAW)).isEmpty) =
          rest.filter (fun i => !(r.pred i (σ.mems.getD i .RAW)).isEmpty) :=
        List.filter_cons_of_neg (by rw [hfs]; exact Bool.false_ne_true)
      simp only [scanSlots]
      rw [if_pos he, hfilter]
      exact ih r ridx σ hndr
    · have hfs : (!(r.pred s (σ.mems.getD s .RAW)).isEmpty) = true := by
        rw [Bool.not_eq_true'] at *
        simpa using he
      have hfilter :
          (s :: rest).filter (fun i => !(r.pred i (σ.mems.getD i .RAW)).isEmpty) =
          s :: rest.filter (fun i => !(r.pred i (σ.mems.getD i .RAW)).isEmpty) :=
        List.filter_cons_of_pos hfs
      simp only [scanSlots]
      rw [if_neg he, hfilter]
      set σ2 := doRule { σ with mems := σ.mems.set s .OCCUPIED } ridx
        (r.pred s (σ.mems.getD s .RAW)) with hσ2
      have hsame : ∀ i ∈ rest, σ2.mems.getD i .RAW = σ.mems.getD i .RAW := by
        intro i hi
        have his : i ≠ s := fun h => hnds (h ▸ hi)
        simp only [hσ2, doRule]
        exact getD_set_ne σ.mems (Ne.symm his) MemState.OCCUPIED MemState.RAW
      have hfeq :
          rest.filter (fun i => !(r.pred i (σ2.mems.getD i .RAW)).isEmpty) =
          rest.filter (fun i => !(r.pred i (σ.mems.getD i .RAW)).isEmpty) :=
        List.filter_congr (fun i hi => by rw [hsame i hi])
      have hmeq :
          (rest.filter (fun i => !(r.pred i (σ.mems.getD i .RAW)).isEmpty)).map
            (fun i => r.pred i (σ2.mems.getD i .RAW)) =
          (rest.filter (fun i => !(r.pred i (σ.mems.getD i .RAW)).isEmpty)).map
            (fun i => r.pred i (σ.mems.getD i .RAW)) :=
        List.map_congr_left
          (fun i hi => by rw [hsame i (List.mem_of_mem_filter hi)])
      obtain ⟨ihc, ihp⟩ := ih r ridx σ2 hndr
      rw [hfeq] at ihc ihp
      rw [hmeq] at ihc
      constructor
      · rw [ihc]
        have hc2 : σ2.claims = σ.claims ++
            [⟨σ.nextPid, ridx, r.pred s (σ.mems.getD s .RAW)⟩] := rfl
        have hp2 : σ2.nextPid = σ.nextPid + 1 := rfl
        rw [hc2, hp2, List.append_assoc]
        rfl
      · rw [ihp]
        have hp2 : σ2.nextPid = σ.nextPid + 1 := rfl
        rw [hp2, List.length_cons]
        omega

/-- Claim C5, counterexample: loading `c5Rule` over three RAW memories marks
only the scanned memory OCCUPIED — memory 2 appears in both claim sets yet
stays RAW — and memory 2 is claimed by two distinct rule invocations during
the scan, contradicting both the "every claimed memory is marked OCCUPIED"
and the "no memory is claimed by more than one rule invocation" parts. -/
theorem load_c5_counterexample :
    (load (initRM 3) c5Rule).claims = [⟨0, 0, [0, 2]⟩, ⟨1, 0, [1, 2]⟩] ∧
    (load (initRM 3) c5Rule).mems = [.OCCUPIED, .OCCUPIED, .RAW] ∧
    (2 : Nat) ∈ [0, 2] ∧ (2 : Nat) ∈ [1, 2] ∧
    (load (initRM 3) c5Rule).mems.getD 2 .RAW ≠ .OCCUPIED := by
  refine ⟨by decide, by decide, by decide, by decide, by decide⟩

/-- Claim C5 (amended): for every call `ResourceManager.load(rule)`, every
current MemoryInfo is evaluated in slot-index order against the rule's
predicate; whenever the predicate returns a non-empty claim set, the
*scanned* memory (only) is marked OCCUPIED and the rule's action is invoked
exactly once on that claim set (one claim per matching slot, in slot order,
with consecutive fresh protocol ids); memories in the claim set other than
the scanned one are not marked, and a memory may be handed to several
invocations when claim sets overlap. -/
theorem load_scan_characterization (σ : RMState) (r : Rule) :
    (load σ r).rules = σ.rules ++ [r] ∧
    (load σ r).mems.length = σ.mems.length ∧
    (∀ i, i < σ.mems.length →
       (load σ r).mems.getD i .RAW =
         if (r.pred i (σ.mems.getD i .RAW)).isEmpty then σ.mems.getD i .RAW
         else .OCCUPIED) ∧
    (load σ r).claims =
      σ.claims ++ claimsFor σ.nextPid σ.rules.length
        ((matchingSlots σ r).map (fun i => r.pred i (σ.mems.getD i .RAW))) ∧
    (load σ r).nextPid = σ.nextPid + (matchingSlots σ r).length := by
  refine ⟨?_, ?_, ?_, ?_, ?_⟩
  · rw [load, scanSlots_rules]
  · rw [load, scanSlots_mems_length]
  · intro i hi
    exact scanSlots_mems_mem (List.range σ.mems.length) r σ.rules.length _ i
      (List.nodup_range _) (List.mem_range.2 hi) hi
  · exact (scanSlots_claims (List.range σ.mems.length) r σ.rules.length _
      (List.nodup_range _)).1
  · exact (scanSlots_claims (List.range σ.mems.length) r σ.rules.length _
      (List.nodup_range _)).2

theorem load_scan_characterization_witness :
    (0 : Nat) < (initRM 3).mems.length ∧
    (load (initRM 3) c5Rule).mems.getD 0 .RAW = .OCCUPIED := by
  refine ⟨by decide, ?_⟩
  rw [(load_scan_characterization (initRM 3) c5Rule).2.2.1 0 (by decide)]
  decide

end RepoVerify

namespace RepoVerify

lemma firstMatchIdx_lt_length : ∀ (rules : List Rule) (slot : Nat) (st : MemState)
    (i : Nat), firstMatchIdx slot st rules = some i → i < rules.length := by
  intro rules
  induction rules with
  | nil => intro slot st i h; cases h
  | cons r rs ih =>
    intro slot st i h
    simp only [firstMatchIdx] at h
    by_cases he : (r.pred slot st).isEmpty
    · rw [if_pos he] at h
      rcases Option.map_eq_some'.1 h with ⟨j, hj, hji⟩
      subst hji
      have := ih slot st j hj
      simp only [List.length_cons]
      omega
    · rw [if_neg he] at h
      cases h
      simp only [List.length_cons]
      omega

lemma firstMatchIdx_not_empty : ∀ (rules : List Rule) (slot : Nat) (st : MemState)
    (i : Nat), firstMatchIdx slot st rules = some i →
    ¬((rules.getD i noRule).pred slot st).isEmpty := by
  intro rules
  induction rules with
  | nil => intro slot st i h; cases h
  | cons r rs ih =>
    intro slot st i h
    simp only [firstMatchIdx] at h
    by_cases he : (r.pred slot st).isEmpty
    · rw [if_pos he] at h
      rcases Option.map_eq_some'.1 h with ⟨j, hj, hji⟩
      subst hji
      exact ih slot st j hj
    · rw [if_neg he] at h
      cases h
      exact he

lemma memInv_claimStep (σ : RMState) (ridx : Nat) (ms : List Nat) (slot : Nat)
    (hms : ∀ x ∈ ms, x = slot) (hlen : slot < σ.mems.length)
    (hzero : ∀ c ∈ σ.claims, slot ∉ c.claimed)
    (h : memInv σ) :
    memInv (doRule { σ with mems := σ.mems.set slot .OCCUPIED } ridx ms) := by
  obtain ⟨h1, h2, h3, h4⟩ := h
  refine ⟨?_, ?_, ?_, ?_⟩
  · intro c1 hc1 c2 hc2 m hm1 hm2
    simp only [doRule, List.mem_append, List.mem_singleton] at hc1 hc2
    rcases hc1 with hc1 | hc1 <;> rcases hc2 with hc2 | hc2
    · exact h1 c1 hc1 c2 hc2 m hm1 hm2
    · subst hc2
      exact absurd (hms m hm2 ▸ hm1) (hzero c1 hc1)
    · subst hc1
      exact absurd (hms m hm1 ▸ hm2) (hzero c2 hc2)
    · subst hc1; subst hc2; rfl
  · intro c hc m hm
    simp only [doRule, List.mem_append, List.mem_singleton] at hc
    rcases hc with hc | hc
    · have hold := h2 c hc m hm
      have hmslot : m ≠ slot := fun hme => hzero c hc (hme ▸ hm)
      refine ⟨by simpa [doRule, List.length_set] using hold.1, ?_⟩
      show (σ.mems.set slot .OCCUPIED).getD m .RAW = .OCCUPIED
      rw [getD_set_ne σ.mems (Ne.symm hmslot) MemState.OCCUPIED MemState.RAW]
      exact hold.2
    · subst hc
      have hmslot : m = slot := hms m hm
      subst hmslot
      refine ⟨by simpa [doRule, List.length_set] using hlen, ?_⟩
      exact getD_set_self σ.mems m MemState.OCCUPIED MemState.RAW hlen
  · intro c hc
    simp only [doRule, List.mem_append, List.mem_singleton] at hc
    rcases hc with hc | hc
    · exact List.mem_append_left _ (h3 c hc)
    · subst hc
      exact List.mem_append_right _ (List.mem_singleton.2 rfl)
  · exact h4

lemma memInv_scan : ∀ (l : List Nat) (r : Rule) (ridx : Nat) (σ : RMState),
    goodRule r → (∀ s ∈ l, s < σ.mems.length) → memInv σ →
    memInv (scanSlots r ridx l σ) := by
  intro l
  induction l with
  | nil => intro r ridx σ _ _ h; exact h
  | cons s rest ih =>
    intro r ridx σ hr hb h
    simp only [scanSlots]
    by_cases he : (r.pred s (σ.mems.getD s .RAW)).isEmpty
    · rw [if_pos he]
      exact ih r ridx σ hr (fun x hx => hb x (List.mem_cons_of_mem s hx)) h
    · rw [if_neg he]
      have hslen : s < σ.mems.length := hb s (List.mem_cons_self s rest)
      have hst : σ.mems.getD s .RAW ≠ .OCCUPIED := by
        intro hocc
        apply he
        rw [hocc, (hr s .RAW).2]
        rfl
      have hzero : ∀ c ∈ σ.claims, s ∉ c.claimed := fun c hc hmem =>
        hst (h.2.1 c hc s hmem).2
      have hstep := memInv_claimStep σ ridx (r.pred s (σ.mems.getD s .RAW)) s
        (fun x hx => (hr s (σ.mems.getD s .RAW)).1 x hx) hslen hzero h
      exact ih r ridx _ hr
        (fun x hx => by
          simpa [doRule, List.length_set] using hb x (List.mem_cons_of_mem s hx))
        hstep

lemma memInv_load (σ : RMState) (r : Rule) (hr : goodRule r) (h : memInv σ) :
    memInv (load σ r) := by
  apply memInv_scan _ r σ.rules.length _ hr
  · intro x hx
    exact List.mem_range.1 hx
  · refine ⟨h.1, h.2.1, h.2.2.1, ?_⟩
    intro rr hrr
    rcases List.mem_append.1 hrr with hm | hm
    · exact h.2.2.2 rr hm
    · rw [List.mem_singleton.1 hm]
      exact hr

lemma memInv_update (σ : RMState) (pid m : Nat) (s : MemState)
    (hc : claimsMem σ pid m) (h : memInv σ) :
    memInv ((update σ pid m s).1) := by
  obtain ⟨c0, hc0, hcpid, hcm⟩ := hc
  have hpid : pid ∈ σ.activePids := hcpid ▸ h.2.2.1 c0 hc0
  have hmlen : m < σ.mems.length := (h.2.1 c0 hc0 m hcm).1
  have hgd : (σ.mems.set m s).getD m .RAW = s :=
    getD_set_self σ.mems m s MemState.RAW hmlen
  simp only [update]
  rw [if_pos hpid]
  set σ2 : RMState :=
    ⟨σ.mems.set m s, σ.rules, σ.claims.filter (fun c => c.pid ≠ pid),
     σ.activePids.erase pid, σ.nextPid⟩ with hσ2
  have hfmem : ∀ c, c ∈ σ2.claims → c ∈ σ.claims ∧ c.pid ≠ pid := by
    intro c hcf
    have := List.mem_filter.1 hcf
    exact ⟨this.1, by simpa using this.2⟩
  have hzero2 : ∀ c ∈ σ2.claims, m ∉ c.claimed := by
    intro c hcf hmem
    obtain ⟨hcs, hcp⟩ := hfmem c hcf
    have : c = c0 := h.1 c hcs c0 hc0 m hmem hcm
    exact hcp (this ▸ hcpid ▸ rfl)
  have h2inv : memInv σ2 := by
    refine ⟨?_, ?_, ?_, ?_⟩
    · intro c1 hc1 c2 hc2 mm hm1 hm2
      exact h.1 c1 (hfmem c1 hc1).1 c2 (hfmem c2 hc2).1 mm hm1 hm2
    · intro c hcf mm hmm
      obtain ⟨hcs, hcp⟩ := hfmem c hcf
      have hold := h.2.1 c hcs mm hmm
      have hmmne : mm ≠ m := fun he => hzero2 c hcf (he ▸ hmm)
      refine ⟨by simpa [List.length_set] using hold.1, ?_⟩
      show (σ.mems.set m s).getD mm .RAW = .OCCUPIED
      rw [getD_set_ne σ.mems (Ne.symm hmmne) s MemState.RAW]
      exact hold.2
    · intro c hcf
      obtain ⟨hcs, hcp⟩ := hfmem c hcf
      exact List.mem_erase_of_ne hcp |>.2 (h.2.2.1 c hcs)
    · exact h.2.2.2
  cases hfm : firstMatchIdx m (σ2.mems.getD m .RAW) σ2.rules with
  | none => rw [reEval_of_none σ2.rules m 0 σ2 hfm]; exact h2inv
  | some i =>
    rw [reEval_of_some σ2.rules m 0 i σ2 hfm]
    have hilt : i < σ2.rules.length :=
      firstMatchIdx_lt_length σ2.rules m _ i hfm
    have hrule : σ2.rules.getD i noRule ∈ σ2.rules := by
      rw [List.getD_eq_getElem σ2.rules noRule hilt]
      exact List.getElem_mem hilt
    have hgood : goodRule (σ2.rules.getD i noRule) := h2inv.2.2.2 _ hrule
    have hne : ¬((σ2.rules.getD i noRule).pred m (σ2.mems.getD m .RAW)).isEmpty :=
      firstMatchIdx_not_empty σ2.rules m _ i hfm
    apply memInv_claimStep σ2 (0 + i) _ m
      (fun x hx => (hgood m (σ2.mems.getD m .RAW)).1 x hx)
      (by simpa [hσ2, List.length_set] using hmlen) hzero2 h2inv

/-- Traces of well-formed `load` / `update` interleavings preserve `memInv`. -/
lemma memInv_run (ops : List MemOp) : ∀ σ, memInv σ → wfMemOps σ ops →
    memInv (runMemOps σ ops) := by
  induction ops with
  | nil => exact fun σ h _ => h
  | cons op rest ih =>
    intro σ h hwf
    cases op with
    | loadRule r => exact ih _ (memInv_load σ r hwf.1 h) hwf.2
    | updateMem p m s => exact ih _ (memInv_update σ p m s hwf.1 h) hwf.2

/-- Claim C6, counterexample: a single `load` of a rule whose predicate
always claims slot 0 produces, over two RAW memories, two distinct protocol
instances (ids 0 and 1) both claiming memory 0 while memory 0 is OCCUPIED. -/
theorem no_double_claim_counterexample :
    (runMemOps (initRM 2) [.loadRule c6Rule]).mems.getD 0 .RAW = .OCCUPIED ∧
    (⟨0, 0, [0]⟩ : Claim) ∈ (runMemOps (initRM 2) [.loadRule c6Rule]).claims ∧
    (⟨1, 0, [0]⟩ : Claim) ∈ (runMemOps (initRM 2) [.loadRule c6Rule]).claims ∧
    (0 : Nat) ∈ ([0] : List Nat) ∧ (0 : Nat) ≠ 1 := by
  refine ⟨by decide, by decide, by decide, by decide, by decide⟩

/-- Claim C6 (amended: provided every loaded rule's predicate claims only the
memory it is evaluated on and claims nothing when that memory is OCCUPIED,
and `update(protocol, memory, state)` is called only by a protocol on a
memory it has claimed): for every such interleaving of `load` and `update`
calls, at no reachable instant is a single MemoryInfo OCCUPIED while claimed
by two distinct live Protocol instances simultaneously. -/
theorem no_double_claim_of_wf (n : Nat) (ops : List MemOp)
    (hwf : wfMemOps (initRM n) ops) :
    noDoubleClaim (runMemOps (initRM n) ops) := by
  have hinit : memInv (initRM n) := by
    refine ⟨?_, ?_, ?_, ?_⟩ <;> intro x hx <;> cases hx
  have h := memInv_run ops (initRM n) hinit hwf
  intro m _ c1 hc1 c2 hc2 hm1 hm2
  exact congrArg Claim.pid (h.1 c1 hc1 c2 hc2 m hm1 hm2)

lemma goodRule_c6GoodRule : goodRule c6GoodRule := by
  intro slot st
  constructor
  · intro x hx
    cases st <;> simp [c6GoodRule] at hx <;> exact hx
  · rfl

lemma c6Demo_wf : wfMemOps (initRM 2) c6DemoOps :=
  ⟨goodRule_c6GoodRule,
   ⟨(⟨⟨0, 0, [0]⟩, by decide, rfl, by decide⟩ :
       claimsMem (load (initRM 2) c6GoodRule) 0 0), trivial⟩⟩

theorem no_double_claim_of_wf_witness :
    wfMemOps (initRM 2) c6DemoOps ∧ noDoubleClaim (runMemOps (initRM 2) c6DemoOps) :=
  ⟨c6Demo_wf, no_double_claim_of_wf 2 c6DemoOps c6Demo_wf⟩

end RepoVerify
